import Mathlib

/-!
# Deployment rotation controller

A shallow embedding of `controller.go`: the admission filter `handleAdd`, the
reconciler `processItem` with its `worker` loop, and the recreation action
`restartDeployment`.

Calls into collaborators (the work queue, the cluster API, standard output) are
recorded, in program order, as a list of `Event`s.  What the collaborators
answer during one call (the pair returned by `queue.Get`, the clock, the errors
returned by `Delete` and `Create`) is the `World` the call runs in.
-/

namespace Controller

/-! ## Go integer and `time` arithmetic -/

/-- Smallest `time.Duration` (an `int64` count of nanoseconds). -/
def minDuration : Int := -9223372036854775808

/-- Largest `time.Duration`. -/
def maxDuration : Int := 9223372036854775807

/-- Two's-complement wrap-around of a mathematical integer to `int64`. -/
def wrap64 (x : Int) : Int := (x + 9223372036854775808) % 18446744073709551616 - 9223372036854775808

/-- Conversion `uint64(x)` of an `int64`. -/
def toUint64 (x : Int) : Int := x % 18446744073709551616

/-- Constant `time.Millisecond`, in nanoseconds. -/
def Millisecond : Int := 1000000

/-- Constant `time.Second`, in nanoseconds. -/
def Second : Int := 1000 * Millisecond

/-- Constant `time.Minute`, in nanoseconds. -/
def Minute : Int := 60 * Second

/-- Helper `lessThanHalf` of package `time`: `uint64(x)+uint64(x) < uint64(y)`. -/
def lessThanHalf (x y : Int) : Bool :=
  decide ((toUint64 x + toUint64 x) % 18446744073709551616 < toUint64 y)

/-- Method `Duration.Round` of package `time`: round `d` to the nearest multiple
of `m`, halves away from zero, saturating on overflow.  Go's `%` truncates
towards zero, which is `Int.tmod`. -/
def Round (d m : Int) : Int :=
  if m ≤ 0 then d
  else
    let r := Int.tmod d m
    if d < 0 then
      let r := wrap64 (-r)
      if lessThanHalf r m then wrap64 (d + r)
      else
        let d1 := wrap64 (wrap64 (d - m) + r)
        if d1 < d then d1 else minDuration
    else
      if lessThanHalf r m then wrap64 (d - r)
      else
        let d1 := wrap64 (wrap64 (d + m) - r)
        if d1 > d then d1 else maxDuration

/-- Method `Time.Sub` of package `time` on instants given as nanoseconds on one
time line: the difference `t - u`, saturated to the range of `Duration`. -/
def Sub (t u : Int) : Int :=
  if t - u < minDuration then minDuration
  else if maxDuration < t - u then maxDuration
  else t - u

/-- Function `time.Since(t)` evaluated when the clock reads `now`. -/
def Since (now t : Int) : Int := Sub now t

/-- The age threshold of `processItem`:
`time.Duration(c.interval*60000*int(time.Millisecond))`, evaluated left to right
in 64-bit `int` arithmetic. -/
def threshold (interval : Int) : Int :=
  wrap64 (wrap64 (interval * 60000) * Millisecond)

/-! ## `strconv.ParseBool` and Go maps -/

/-- Function `strconv.ParseBool`: the value and, for a string that is not one
of the twelve accepted spellings, the syntax error. -/
def ParseBool (str : String) : Bool × Option String :=
  if str = "1" ∨ str = "t" ∨ str = "T" ∨ str = "true" ∨ str = "TRUE" ∨ str = "True" then
    (true, none)
  else if str = "0" ∨ str = "f" ∨ str = "F" ∨ str = "false" ∨ str = "FALSE" ∨ str = "False" then
    (false, none)
  else
    (false, some ("strconv.ParseBool: parsing " ++ str ++ ": invalid syntax"))

/-- A Go `map[string]string`, as an association list read by first match. -/
abbrev StringMap := List (String × String)

/-- Index expression `m[k]` on a `map[string]string`: the zero value `""` when
the key is absent (also on a nil map). -/
def mapIndex (m : StringMap) (k : String) : String :=
  match m.lookup k with
  | some v => v
  | none => ""

/-- Assignment `m[k] = v` on a `map[string]string`. -/
def mapSet (m : StringMap) (k v : String) : StringMap :=
  (k, v) :: m.filter (fun e => e.1 != k)

/-! ## Kubernetes objects -/

/-- The zero `time.Time` (January 1, year 1, 00:00 UTC), in nanoseconds
relative to the Unix epoch. -/
def zeroTime : Int := -62135596800000000000

/-- Type `metav1.ObjectMeta`, restricted to the fields the controller reads or
writes. -/
structure ObjectMeta where
  Name : String
  Namespace : String
  CreationTimestamp : Int
  Labels : StringMap
  deriving DecidableEq, Repr

/-- Type `apiv1.Protocol`. -/
inductive Protocol where
  | TCP
  | UDP
  | SCTP
  deriving DecidableEq, Repr

/-- Type `apiv1.ContainerPort`. -/
structure ContainerPort where
  Name : String
  Protocol : Protocol
  ContainerPort : Int
  deriving DecidableEq, Repr

/-- Type `apiv1.Container`. -/
structure Container where
  Name : String
  Image : String
  Ports : List ContainerPort
  deriving DecidableEq, Repr

/-- Type `apiv1.PodTemplateSpec`: the labels of its metadata and the containers
of its pod spec. -/
structure PodTemplateSpec where
  Labels : StringMap
  Containers : List Container
  deriving DecidableEq, Repr

/-- Type `appsv1.DeploymentSpec`; `Replicas` and `Selector` are pointers, `none`
being nil, and `Selector` holds the selector's `MatchLabels`. -/
structure DeploymentSpec where
  Replicas : Option Int
  Selector : Option StringMap
  Template : PodTemplateSpec
  deriving DecidableEq, Repr

/-- Type `appsv1.Deployment`. -/
structure Deployment where
  ObjectMeta : ObjectMeta
  Spec : DeploymentSpec
  deriving DecidableEq, Repr

/-- A value of the empty interface type as the informer and the work queue hand it to
the controller: the nil interface or a pointer to a Deployment. -/
inductive Obj where
  | nil
  | deployment (d : Deployment)
  deriving DecidableEq, Repr

/-! ## Effects -/

/-- One call into a collaborator. -/
inductive Event where
  | print (s : String)
  | queueAdd (item : Obj)
  | queueDone (item : Obj)
  | queueForget (item : Obj)
  | apiDelete (ns name : String)
  | apiCreate (ns : String) (d : Deployment)
  deriving DecidableEq, Repr

/-- How a call ends: it returns a value or it panics. -/
inductive Outcome (α : Type) where
  | returned (a : α)
  | panicked (msg : String)
  deriving DecidableEq, Repr

/-- The result of running a function: the calls it made, in order, and how it
ended. -/
structure Run (α : Type) where
  trace : List Event
  outcome : Outcome α
  deriving DecidableEq, Repr

/-- What the collaborators answer during one call of `processItem`: the pair
returned by `queue.Get`, the reading of the clock, and the error (`none` is nil)
returned by the API server for a delete and for a create request. -/
structure World where
  item : Obj
  shutdown : Bool
  now : Int
  deleteErr : String → String → Option String
  createErr : String → Deployment → Option String

/-- The delete requests of a trace, as (namespace, name). -/
def deletes : List Event → List (String × String)
  | [] => []
  | Event.apiDelete ns name :: es => (ns, name) :: deletes es
  | _ :: es => deletes es

/-- The create requests of a trace, as (namespace, definition). -/
def creates : List Event → List (String × Deployment)
  | [] => []
  | Event.apiCreate ns d :: es => (ns, d) :: creates es
  | _ :: es => creates es

/-- The work-queue operations of a trace. -/
def queueOps : List Event → List Event
  | [] => []
  | Event.queueAdd i :: es => Event.queueAdd i :: queueOps es
  | Event.queueDone i :: es => Event.queueDone i :: queueOps es
  | Event.queueForget i :: es => Event.queueForget i :: queueOps es
  | _ :: es => queueOps es

/-! ## The controller -/

/-- Type `controller`, restricted to its configuration; the client set, the
lister and the queue are the collaborators. -/
structure controller where
  interval : Int
  namespaces : List String
  deriving DecidableEq, Repr

/-- The loop of `containsNameSpace` over a slice. -/
def containsLoop (namespace_ : String) : List String → Bool
  | [] => false
  | ns :: rest => if ns = namespace_ then true else containsLoop namespace_ rest

/-- Method `containsNameSpace`. -/
def containsNameSpace (c : controller) (namespace_ : String) : Bool :=
  containsLoop namespace_ c.namespaces

/-- Method `handleAdd`.  The type assertion `obj.(*v1.Deployment)` panics on a
nil interface. -/
def handleAdd (c : controller) (obj : Obj) : Run Unit :=
  match obj with
  | Obj.nil =>
    ⟨[], Outcome.panicked "interface conversion: interface is nil, not *v1.Deployment"⟩
  | Obj.deployment d =>
    let namespaceCheck := c.namespaces.length == 0 || containsNameSpace c d.ObjectMeta.Namespace
    let mesh := (ParseBool (mapIndex d.ObjectMeta.Labels "mesh")).1
    if namespaceCheck && mesh then
      ⟨[Event.print ("Adding Deployment " ++ d.ObjectMeta.Name ++ " to the queue. \n"),
        Event.queueAdd obj], Outcome.returned ()⟩
    else
      ⟨[], Outcome.returned ()⟩

/-- The object literal built by `restartDeployment`, after `SetLabels`. -/
def replacement : Deployment :=
  let deployment : Deployment :=
    { ObjectMeta := { Name := "nginx-deployment", Namespace := "",
                      CreationTimestamp := zeroTime, Labels := [] },
      Spec :=
        { Replicas := some 3,
          Selector := some (mapSet (mapSet [] "app" "nginx") "mesh" "true"),
          Template :=
            { Labels := mapSet (mapSet [] "app" "nginx") "mesh" "true",
              Containers :=
                [{ Name := "nginx", Image := "nginx:1.14.2",
                   Ports := [{ Name := "http", Protocol := Protocol.TCP, ContainerPort := 80 }] }] } } }
  let labels : StringMap := []
  let labels := mapSet labels "app" "nginx"
  let labels := mapSet labels "mesh" "true"
  { deployment with ObjectMeta := { deployment.ObjectMeta with Labels := labels } }

/-- Method `restartDeployment`, given the error the create request returns. -/
def restartDeployment (createErr : String → Deployment → Option String) (namespace_ : String) :
    Run Unit :=
  let deployment := replacement
  match createErr namespace_ deployment with
  | some err =>
    ⟨[Event.apiCreate namespace_ deployment,
      Event.print ("Error while creating a new deployment : " ++ err ++ " \n")],
     Outcome.returned ()⟩
  | none => ⟨[Event.apiCreate namespace_ deployment], Outcome.returned ()⟩

/-- Method `processItem`.  The statements run in the order of the source: the
type assertion on the item and the age computation come before the test of
`shutdown`. -/
def processItem (c : controller) (w : World) : Run Bool :=
  match w.item with
  | Obj.nil =>
    ⟨[], Outcome.panicked "interface conversion: interface is nil, not *v1.Deployment"⟩
  | Obj.deployment d =>
    let age := Round (Since w.now d.ObjectMeta.CreationTimestamp) Minute
    if w.shutdown then ⟨[], Outcome.returned false⟩
    else if age > threshold c.interval then
      let t1 := [Event.print ("Restarting Deployment : " ++ d.ObjectMeta.Name ++ "\n"),
                 Event.apiDelete d.ObjectMeta.Namespace d.ObjectMeta.Name]
      let t2 :=
        match w.deleteErr d.ObjectMeta.Namespace d.ObjectMeta.Name with
        | some _ =>
          [Event.print ("Error while deleting the deployment : " ++ d.ObjectMeta.Name ++ " \n")]
        | none => (restartDeployment w.createErr d.ObjectMeta.Namespace).trace
      ⟨t1 ++ t2 ++ [Event.queueForget w.item], Outcome.returned false⟩
    else
      ⟨[Event.queueDone w.item, Event.queueAdd w.item], Outcome.returned false⟩

/-- Method `worker`: the loop `for c.processItem()` with an empty body, run
against the successive worlds its calls of `processItem` meet.  With no world left the next `Get`
has not returned yet, and the trace so far is what has happened. -/
def worker (c : controller) : List World → Run Unit
  | [] => ⟨[], Outcome.returned ()⟩
  | w :: ws =>
    match processItem c w with
    | ⟨tr, Outcome.panicked msg⟩ => ⟨tr, Outcome.panicked msg⟩
    | ⟨tr, Outcome.returned false⟩ => ⟨tr, Outcome.returned ()⟩
    | ⟨tr, Outcome.returned true⟩ =>
      let rest := worker c ws
      ⟨tr ++ rest.trace, rest.outcome⟩

/-! ## The work queue -/

/-- Modelled from the spec: the work queue is the `workqueue` package of
client-go, a collaborator whose code is not part of this repository.  Its state
follows the contract of the design: the references pending in order, those in
progress, those added again while in progress (queued for a later pass when
they are done), and those with rate-limit history. -/
structure WorkQueue where
  pending : List Obj
  inProgress : List Obj
  readded : List Obj
  history : List Obj
  deriving DecidableEq, Repr

namespace WorkQueue

/-- Modelled from the spec: `add(ref)` inserts ref if not already pending,
otherwise it is a no-op; a ref added while in progress is queued for a
subsequent pass. -/
def add (q : WorkQueue) (r : Obj) : WorkQueue :=
  if r ∈ q.pending ∨ r ∈ q.readded then q
  else if r ∈ q.inProgress then { q with readded := q.readded ++ [r] }
  else { q with pending := q.pending ++ [r] }

/-- Modelled from the spec: `get()` removes the first pending ref from the
pending set and marks it in progress; `none` when nothing is pending. -/
def get (q : WorkQueue) : Option (Obj × WorkQueue) :=
  match q.pending with
  | [] => none
  | r :: rest => some (r, { q with pending := rest, inProgress := r :: q.inProgress })

/-- Modelled from the spec: `done(ref)` clears the in-progress marker, and a
ref that was added while in progress becomes pending. -/
def done (q : WorkQueue) (r : Obj) : WorkQueue :=
  if r ∈ q.readded then
    { q with inProgress := q.inProgress.filter (fun x => x != r),
             readded := q.readded.filter (fun x => x != r),
             pending := q.pending ++ [r] }
  else { q with inProgress := q.inProgress.filter (fun x => x != r) }

/-- Modelled from the spec: `forget(ref)` clears the rate-limit history
associated with ref and nothing else. -/
def forget (q : WorkQueue) (r : Obj) : WorkQueue :=
  { q with history := q.history.filter (fun x => x != r) }

/-- The queue after the queue operations of a trace, applied in order. -/
def replay (q : WorkQueue) : List Event → WorkQueue
  | [] => q
  | Event.queueAdd r :: es => replay (q.add r) es
  | Event.queueDone r :: es => replay (q.done r) es
  | Event.queueForget r :: es => replay (q.forget r) es
  | _ :: es => replay q es

end WorkQueue

/-! ## Age and threshold as the design words them -/

/-- The nearest whole minute to a number of nanoseconds, halves going away from
zero, on the mathematical integers: no wrap-around and no saturation. -/
def nearestMinute (a : Int) : Int :=
  if 0 ≤ a then (a + 30000000000) / 60000000000 * 60000000000
  else -((-a + 30000000000) / 60000000000 * 60000000000)

/-- The age of the design: now minus creationTimestamp, rounded to the nearest
whole minute. -/
def specAge (now created : Int) : Int := nearestMinute (now - created)

/-- The threshold of the design: `interval` minutes, in nanoseconds. -/
def specThreshold (interval : Int) : Int := interval * 60000000000

/-! ## Sample inputs -/

/-- A Deployment `default/foo` created at instant 0 with label `mesh` set to `v`. -/
def sampleDeployment (v : String) : Deployment :=
  { ObjectMeta := { Name := "foo", Namespace := "default", CreationTimestamp := 0,
                    Labels := [("mesh", v)] },
    Spec := { Replicas := some 1, Selector := none,
              Template := { Labels := [], Containers := [] } } }

/-- A world in which `Get` yields `default/foo` aged `age` nanoseconds, and the
delete request fails when `deleteFails` is set. -/
def sampleWorld (age : Int) (deleteFails : Bool) : World :=
  { item := Obj.deployment (sampleDeployment "true"), shutdown := false, now := age,
    deleteErr := fun _ _ => if deleteFails then some "not found" else none,
    createErr := fun _ _ => none }

/-! ## Admission filter -/

theorem containsLoop_iff (namespace_ : String) (l : List String) :
    containsLoop namespace_ l = true ↔ namespace_ ∈ l := by
  induction l with
  | nil => simp [containsLoop]
  | cons a t ih =>
    by_cases h : a = namespace_
    · simp [containsLoop, h]
    · have h2 : ¬ namespace_ = a := fun e => h e.symm
      simp [containsLoop, h, h2, ih]

theorem namespaceCheck_iff (c : controller) (ns : String) :
    (c.namespaces.length == 0 || containsNameSpace c ns) = true ↔
      (c.namespaces = [] ∨ ns ∈ c.namespaces) := by
  simp [containsNameSpace, containsLoop_iff, List.length_eq_zero]

theorem ParseBool_true_iff (s : String) :
    (ParseBool s).1 = true ↔ s ∈ ["1", "t", "T", "TRUE", "true", "True"] := by
  unfold ParseBool
  split
  · rename_i h
    simp only [List.mem_cons, List.mem_singleton, List.not_mem_nil, or_false, true_iff]
    tauto
  · rename_i h
    have hn : ¬ s ∈ ["1", "t", "T", "TRUE", "true", "True"] := by
      simp only [List.mem_cons, List.mem_singleton, List.not_mem_nil, or_false]
      tauto
    split <;> simp [hn]

/-- Claim C1: on an observed Deployment `handleAdd` returns normally; it adds the
object to the queue exactly once when (the allow-list is empty or holds the
object's namespace) and the `mesh` label parses as true under `ParseBool`, and
makes no call at all otherwise; a missing or unparsable label counts as false. -/
theorem handleAdd_enqueues_iff_eligible (c : controller) (d : Deployment) :
    (handleAdd c (Obj.deployment d)).outcome = Outcome.returned () ∧
    queueOps (handleAdd c (Obj.deployment d)).trace =
      (if (c.namespaces = [] ∨ d.ObjectMeta.Namespace ∈ c.namespaces) ∧
          (ParseBool (mapIndex d.ObjectMeta.Labels "mesh")).1 = true
       then [Event.queueAdd (Obj.deployment d)] else []) ∧
    (¬ ((c.namespaces = [] ∨ d.ObjectMeta.Namespace ∈ c.namespaces) ∧
          (ParseBool (mapIndex d.ObjectMeta.Labels "mesh")).1 = true) →
      (handleAdd c (Obj.deployment d)).trace = []) ∧
    (d.ObjectMeta.Labels.lookup "mesh" = none ∨
        (ParseBool (mapIndex d.ObjectMeta.Labels "mesh")).2 ≠ none →
      (ParseBool (mapIndex d.ObjectMeta.Labels "mesh")).1 = false ∧
      (handleAdd c (Obj.deployment d)).trace = []) := by
  have hns := namespaceCheck_iff c d.ObjectMeta.Namespace
  have hfalse : (d.ObjectMeta.Labels.lookup "mesh" = none ∨
        (ParseBool (mapIndex d.ObjectMeta.Labels "mesh")).2 ≠ none) →
      (ParseBool (mapIndex d.ObjectMeta.Labels "mesh")).1 = false := by
    rintro (h | h)
    · simp [mapIndex, h, ParseBool]
    · revert h
      unfold ParseBool
      split
      · simp
      · split <;> simp
  by_cases hacc : (c.namespaces = [] ∨ d.ObjectMeta.Namespace ∈ c.namespaces) ∧
      (ParseBool (mapIndex d.ObjectMeta.Labels "mesh")).1 = true
  · have h1 := hns.mpr hacc.1
    have h2 := hacc.2
    have hrun : handleAdd c (Obj.deployment d) =
        ⟨[Event.print ("Adding Deployment " ++ d.ObjectMeta.Name ++ " to the queue. \n"),
          Event.queueAdd (Obj.deployment d)], Outcome.returned ()⟩ := by
      simp only [handleAdd, h1, h2, Bool.and_self, if_true]
    refine ⟨by rw [hrun], ?_, fun h => absurd hacc h, fun h => ?_⟩
    · rw [hrun, if_pos hacc]; rfl
    · rw [hfalse h] at h2; exact absurd h2 (by decide)
  · have hrun : handleAdd c (Obj.deployment d) = ⟨[], Outcome.returned ()⟩ := by
      have : ((c.namespaces.length == 0 || containsNameSpace c d.ObjectMeta.Namespace) &&
          (ParseBool (mapIndex d.ObjectMeta.Labels "mesh")).1) = false := by
        rw [Bool.eq_false_iff]
        intro h
        rw [Bool.and_eq_true] at h
        exact hacc ⟨hns.mp h.1, h.2⟩
      simp only [handleAdd, this]
      rfl
    refine ⟨by rw [hrun], ?_, fun _ => by rw [hrun], fun h => ⟨hfalse h, by rw [hrun]⟩⟩
    rw [hrun, if_neg hacc]; rfl

/-- Claim C2, refuted as stated: a Deployment whose `mesh` label is `1`, which is
not the string `true`, is added to the queue under the empty allow-list. -/
theorem handleAdd_enqueues_mesh_one :
    (sampleDeployment "1").ObjectMeta.Labels.lookup "mesh" ≠ some "true" ∧
    queueOps (handleAdd ⟨10, []⟩ (Obj.deployment (sampleDeployment "1"))).trace =
      [Event.queueAdd (Obj.deployment (sampleDeployment "1"))] := by
  decide

/-- Claim C2, amended: a Deployment whose `mesh` label is absent or is none of
the six spellings `1`, `t`, `T`, `TRUE`, `true`, `True` that `ParseBool` reads as
true is never added to the queue, whatever the allow-list. -/
theorem handleAdd_rejects_unless_mesh_true (c : controller) (d : Deployment)
    (h : ∀ v, d.ObjectMeta.Labels.lookup "mesh" = some v →
      v ∉ ["1", "t", "T", "TRUE", "true", "True"]) :
    (handleAdd c (Obj.deployment d)).trace = [] := by
  have hm : (ParseBool (mapIndex d.ObjectMeta.Labels "mesh")).1 = false := by
    rw [Bool.eq_false_iff, Ne, ParseBool_true_iff]
    unfold mapIndex
    cases hl : d.ObjectMeta.Labels.lookup "mesh" with
    | none => simp
    | some v => exact h v hl
  simp only [handleAdd, hm, Bool.and_false]
  rfl

theorem handleAdd_rejects_unless_mesh_true_witness :
    (∀ v, (sampleDeployment "yes").ObjectMeta.Labels.lookup "mesh" = some v →
      v ∉ ["1", "t", "T", "TRUE", "true", "True"]) ∧
    (handleAdd ⟨10, []⟩ (Obj.deployment (sampleDeployment "yes"))).trace = [] :=
  ⟨by intro v hv; simp [sampleDeployment, List.lookup] at hv; subst hv; decide,
   handleAdd_rejects_unless_mesh_true ⟨10, []⟩ (sampleDeployment "yes")
     (by intro v hv; simp [sampleDeployment, List.lookup] at hv; subst hv; decide)⟩

/-! ## Reconciler -/

theorem processItem_act (c : controller) (w : World) (d : Deployment)
    (hitem : w.item = Obj.deployment d) (hshut : w.shutdown = false)
    (hage : Round (Since w.now d.ObjectMeta.CreationTimestamp) Minute > threshold c.interval) :
    processItem c w =
      ⟨[Event.print ("Restarting Deployment : " ++ d.ObjectMeta.Name ++ "\n"),
        Event.apiDelete d.ObjectMeta.Namespace d.ObjectMeta.Name] ++
        (match w.deleteErr d.ObjectMeta.Namespace d.ObjectMeta.Name with
          | some _ =>
            [Event.print ("Error while deleting the deployment : " ++ d.ObjectMeta.Name ++ " \n")]
          | none => (restartDeployment w.createErr d.ObjectMeta.Namespace).trace) ++
        [Event.queueForget (Obj.deployment d)], Outcome.returned false⟩ := by
  unfold processItem
  rw [hitem]
  simp only [hshut, hage, if_true, Bool.false_eq_true, if_false]

theorem processItem_defer (c : controller) (w : World) (d : Deployment)
    (hitem : w.item = Obj.deployment d) (hshut : w.shutdown = false)
    (hage : Round (Since w.now d.ObjectMeta.CreationTimestamp) Minute ≤ threshold c.interval) :
    processItem c w =
      ⟨[Event.queueDone (Obj.deployment d), Event.queueAdd (Obj.deployment d)],
       Outcome.returned false⟩ := by
  have hn : ¬ (Round (Since w.now d.ObjectMeta.CreationTimestamp) Minute > threshold c.interval) :=
    not_lt.mpr hage
  unfold processItem
  rw [hitem]
  simp only [hshut, hn, Bool.false_eq_true, if_false]

theorem restartDeployment_trace_cases (createErr : String → Deployment → Option String)
    (ns : String) :
    (restartDeployment createErr ns).trace = [Event.apiCreate ns replacement] ∨
    ∃ err, (restartDeployment createErr ns).trace =
      [Event.apiCreate ns replacement,
       Event.print ("Error while creating a new deployment : " ++ err ++ " \n")] := by
  simp only [restartDeployment]
  cases createErr ns replacement with
  | none => exact Or.inl rfl
  | some err => exact Or.inr ⟨err, rfl⟩

/-- Claim C5, evaluated on the code: when `Get` reports shutdown, returning the
nil item, `processItem` panics in the type assertion, before it tests
`shutdown`, and so does the worker loop. -/
theorem processItem_panics_on_shutdown (c : controller) (now : Int)
    (deleteErr : String → String → Option String)
    (createErr : String → Deployment → Option String) (ws : List World) :
    processItem c ⟨Obj.nil, true, now, deleteErr, createErr⟩ =
      ⟨[], Outcome.panicked "interface conversion: interface is nil, not *v1.Deployment"⟩ ∧
    (worker c (⟨Obj.nil, true, now, deleteErr, createErr⟩ :: ws)).outcome =
      Outcome.panicked "interface conversion: interface is nil, not *v1.Deployment" :=
  ⟨rfl, rfl⟩

/-- Claim C6, evaluated on the code: for every dequeued Deployment, shutdown not
reported, and every outcome of the delete and create requests, `processItem`
returns false, so the worker loop returns after that one item, whatever the
queue yields next. -/
theorem processItem_returns_false (c : controller) (d : Deployment) (now : Int)
    (deleteErr : String → String → Option String)
    (createErr : String → Deployment → Option String) (ws : List World) :
    (processItem c ⟨Obj.deployment d, false, now, deleteErr, createErr⟩).outcome =
      Outcome.returned false ∧
    worker c (⟨Obj.deployment d, false, now, deleteErr, createErr⟩ :: ws) =
      ⟨(processItem c ⟨Obj.deployment d, false, now, deleteErr, createErr⟩).trace,
       Outcome.returned ()⟩ := by
  have h : (processItem c ⟨Obj.deployment d, false, now, deleteErr, createErr⟩).outcome =
      Outcome.returned false := by
    simp only [processItem, Bool.false_eq_true, if_false]
    split <;> rfl
  refine ⟨h, ?_⟩
  unfold worker
  revert h
  cases processItem c ⟨Obj.deployment d, false, now, deleteErr, createErr⟩ with
  | mk tr out =>
    intro h
    simp only at h
    subst h
    rfl

/-- Claim C7: for every target namespace `restartDeployment` returns normally
after exactly one create request, in that namespace, whether the request fails
or not, and what it submits is one fixed definition: name `nginx-deployment`,
3 replicas, object labels, selector match-labels and pod-template labels all
the map from `app` to `nginx` and from `mesh` to `true`, and one container
`nginx` with image `nginx:1.14.2` and TCP port 80 named `http`. -/
theorem restartDeployment_creates_fixed_template
    (createErr : String → Deployment → Option String) (ns : String) :
    (restartDeployment createErr ns).outcome = Outcome.returned () ∧
    creates (restartDeployment createErr ns).trace = [(ns, replacement)] ∧
    deletes (restartDeployment createErr ns).trace = [] ∧
    queueOps (restartDeployment createErr ns).trace = [] ∧
    replacement.ObjectMeta.Name = "nginx-deployment" ∧
    replacement.Spec.Replicas = some 3 ∧
    replacement.ObjectMeta.Labels = [("mesh", "true"), ("app", "nginx")] ∧
    replacement.Spec.Selector = some [("mesh", "true"), ("app", "nginx")] ∧
    replacement.Spec.Template.Labels = [("mesh", "true"), ("app", "nginx")] ∧
    (∀ k, mapIndex replacement.ObjectMeta.Labels k =
      if k = "mesh" then "true" else if k = "app" then "nginx" else "") ∧
    replacement.Spec.Template.Containers =
      [⟨"nginx", "nginx:1.14.2", [⟨"http", Protocol.TCP, 80⟩]⟩] := by
  have hout : (restartDeployment createErr ns).outcome = Outcome.returned () := by
    simp only [restartDeployment]
    cases createErr ns replacement <;> rfl
  have hmap : ∀ k, mapIndex replacement.ObjectMeta.Labels k =
      if k = "mesh" then "true" else if k = "app" then "nginx" else "" := by
    intro k
    have hl : replacement.ObjectMeta.Labels = [("mesh", "true"), ("app", "nginx")] := by decide
    rw [hl]
    by_cases h1 : k = "mesh"
    · subst h1; decide
    · by_cases h2 : k = "app"
      · subst h2; decide
      · have e1 : (k == "mesh") = false := by simpa using h1
        have e2 : (k == "app") = false := by simpa using h2
        simp [mapIndex, List.lookup, e1, e2, h1, h2]
  refine ⟨hout, ?_, ?_, ?_, rfl, rfl, by decide, by decide, by decide, hmap, by decide⟩ <;>
    rcases restartDeployment_trace_cases createErr ns with h | ⟨err, h⟩ <;>
      simp [h, creates, deletes, queueOps]

/-- Claim C8: for a dequeued item whose rounded age exceeds the threshold,
whether the delete succeeds or fails, the queue operations of `processItem` are
exactly one `Forget` of the item: the item is not added again, the delete is
issued once, and `Done` is not called, so that the item stays in progress. -/
theorem processItem_aged_forgets_only (c : controller) (w : World) (d : Deployment)
    (hitem : w.item = Obj.deployment d) (hshut : w.shutdown = false)
    (hage : Round (Since w.now d.ObjectMeta.CreationTimestamp) Minute > threshold c.interval) :
    queueOps (processItem c w).trace = [Event.queueForget (Obj.deployment d)] ∧
    deletes (processItem c w).trace = [(d.ObjectMeta.Namespace, d.ObjectMeta.Name)] ∧
    ∀ q : WorkQueue,
      (q.replay (processItem c w).trace).pending = q.pending ∧
      (q.replay (processItem c w).trace).inProgress = q.inProgress ∧
      (q.replay (processItem c w).trace).readded = q.readded := by
  rw [processItem_act c w d hitem hshut hage]
  cases hdel : w.deleteErr d.ObjectMeta.Namespace d.ObjectMeta.Name with
  | some e =>
    exact ⟨rfl, rfl, fun q => ⟨rfl, rfl, rfl⟩⟩
  | none =>
    rcases restartDeployment_trace_cases w.createErr d.ObjectMeta.Namespace with h | ⟨err, h⟩ <;>
      simp only [h] <;> exact ⟨rfl, rfl, fun q => ⟨rfl, rfl, rfl⟩⟩

theorem processItem_aged_forgets_only_witness :
    Round (Since (sampleWorld 660000000000 true).now
      (sampleDeployment "true").ObjectMeta.CreationTimestamp) Minute > threshold 10 ∧
    queueOps (processItem ⟨10, []⟩ (sampleWorld 660000000000 true)).trace =
      [Event.queueForget (Obj.deployment (sampleDeployment "true"))] ∧
    Obj.deployment (sampleDeployment "true") ∈
      ((WorkQueue.mk [] [Obj.deployment (sampleDeployment "true")] [] []).replay
        (processItem ⟨10, []⟩ (sampleWorld 660000000000 true)).trace).inProgress :=
  have h := processItem_aged_forgets_only ⟨10, []⟩ (sampleWorld 660000000000 true)
    (sampleDeployment "true") rfl rfl (by decide)
  ⟨by decide, h.1, by rw [(h.2.2 _).2.1]; exact List.mem_singleton.mpr rfl⟩

/-! ## Age arithmetic -/

theorem tmod_of_neg (d m : Int) (hd : d < 0) (hm : 0 < m) : Int.tmod d m = -((-d) % m) := by
  have h1 : Int.tmod (-d) m = (-d) % m := Int.tmod_eq_emod (by omega) (by omega)
  have h2 : Int.tmod d m = d - m * d.tdiv m := Int.tmod_def d m
  have h3 : Int.tmod (-d) m = (-d) - m * (-d).tdiv m := Int.tmod_def (-d) m
  have h4 : (-d).tdiv m = -(d.tdiv m) := Int.neg_tdiv d m
  rw [h4] at h3
  rw [← h1, h3, h2]
  ring

theorem Minute_eq : Minute = 60000000000 := by decide

/-- On every `Duration`, rounding to the minute neither wraps nor saturates: the
result is the nearest multiple of a minute, halves going away from zero. -/
theorem Round_Minute_eq (d : Int) (hlo : minDuration ≤ d) (hhi : d ≤ maxDuration) :
    Round d Minute =
      if d < 0 then
        (if 2 * ((-d) % 60000000000) < 60000000000 then d + (-d) % 60000000000
         else d - 60000000000 + (-d) % 60000000000)
      else
        (if 2 * (d % 60000000000) < 60000000000 then d - d % 60000000000
         else d + 60000000000 - d % 60000000000) := by
  rw [Minute_eq]
  unfold minDuration at hlo
  unfold maxDuration at hhi
  by_cases hd : d < 0
  · have ht := tmod_of_neg d 60000000000 hd (by decide)
    simp only [Round, lessThanHalf, toUint64, wrap64, minDuration, maxDuration, ht, hd,
      decide_eq_true_eq, if_true]
    split_ifs <;> omega
  · have ht : Int.tmod d 60000000000 = d % 60000000000 :=
      Int.tmod_eq_emod (by omega) (by decide)
    simp only [Round, lessThanHalf, toUint64, wrap64, minDuration, maxDuration, ht, hd,
      decide_eq_true_eq, if_false]
    split_ifs <;> omega

theorem Since_bounds (now t : Int) :
    minDuration ≤ Since now t ∧ Since now t ≤ maxDuration := by
  unfold Since Sub minDuration maxDuration
  split_ifs <;> omega

theorem threshold_eq (interval : Int)
    (hlo : minDuration ≤ interval * 60000 * 1000000)
    (hhi : interval * 60000 * 1000000 ≤ maxDuration) :
    threshold interval = 60000000000 * interval := by
  unfold minDuration at hlo
  unfold maxDuration at hhi
  unfold threshold wrap64 Millisecond
  omega

theorem Round_gt_imp (d k : Int) (hlo : minDuration ≤ d) (hhi : d ≤ maxDuration)
    (h : Round d Minute > 60000000000 * k) : d ≥ 60000000000 * k + 30000000000 ∨
      (k < 0 ∧ d > 60000000000 * k + 30000000000) := by
  rw [Round_Minute_eq d hlo hhi] at h
  unfold minDuration at hlo
  unfold maxDuration at hhi
  split_ifs at h <;> omega

theorem Round_gt_iff (d k : Int) (hlo : minDuration ≤ d) (hhi : d ≤ maxDuration) (hk : 0 ≤ k) :
    Round d Minute > 60000000000 * k ↔ d ≥ 60000000000 * k + 30000000000 := by
  rw [Round_Minute_eq d hlo hhi]
  unfold minDuration at hlo
  unfold maxDuration at hhi
  split_ifs <;> omega

theorem processItem_shutdown (c : controller) (w : World) (d : Deployment)
    (hitem : w.item = Obj.deployment d) (hshut : w.shutdown = true) :
    processItem c w = ⟨[], Outcome.returned false⟩ := by
  unfold processItem
  rw [hitem]
  simp only [hshut, if_true]

theorem deletes_iff_aged (c : controller) (w : World) (d : Deployment)
    (hitem : w.item = Obj.deployment d) :
    deletes (processItem c w).trace = [(d.ObjectMeta.Namespace, d.ObjectMeta.Name)] ↔
      (w.shutdown = false ∧
        Round (Since w.now d.ObjectMeta.CreationTimestamp) Minute > threshold c.interval) := by
  cases hshut : w.shutdown with
  | true =>
    rw [processItem_shutdown c w d hitem hshut]
    simp [deletes]
  | false =>
    by_cases hage :
        Round (Since w.now d.ObjectMeta.CreationTimestamp) Minute > threshold c.interval
    · rw [processItem_act c w d hitem hshut hage]
      simp only [hage, and_self, iff_true]
      cases w.deleteErr d.ObjectMeta.Namespace d.ObjectMeta.Name with
      | some e => rfl
      | none =>
        rcases restartDeployment_trace_cases w.createErr d.ObjectMeta.Namespace with
          h | ⟨err, h⟩ <;> simp only [h] <;> rfl
    · rw [processItem_defer c w d hitem hshut (not_lt.mp hage)]
      simp [deletes, hage]

theorem deletes_nonempty_iff (c : controller) (w : World) (d : Deployment)
    (hitem : w.item = Obj.deployment d) :
    deletes (processItem c w).trace ≠ [] ↔
      deletes (processItem c w).trace = [(d.ObjectMeta.Namespace, d.ObjectMeta.Name)] := by
  constructor
  · intro hne
    cases hshut : w.shutdown with
    | true =>
      rw [processItem_shutdown c w d hitem hshut] at hne
      exact absurd rfl hne
    | false =>
      by_cases hage :
          Round (Since w.now d.ObjectMeta.CreationTimestamp) Minute > threshold c.interval
      · exact (deletes_iff_aged c w d hitem).mpr ⟨hshut, hage⟩
      · rw [processItem_defer c w d hitem hshut (not_lt.mp hage)] at hne
        exact absurd rfl hne
  · intro h
    rw [h]
    exact List.cons_ne_nil _ _

/-- Claim C9: when interval·60000·1000000 fits in a 64-bit signed integer, a
delete request issued by `processItem` for an object implies that the object's
unrounded age, both as the difference now − creationTimestamp and as the
duration `Since` returns, is strictly greater than `interval` minutes. -/
theorem processItem_delete_implies_age_over_threshold (c : controller) (w : World)
    (d : Deployment) (hitem : w.item = Obj.deployment d)
    (hlo : minDuration ≤ c.interval * 60000 * 1000000)
    (hhi : c.interval * 60000 * 1000000 ≤ maxDuration)
    (hdel : deletes (processItem c w).trace ≠ []) :
    w.now - d.ObjectMeta.CreationTimestamp > c.interval * Minute ∧
    Since w.now d.ObjectMeta.CreationTimestamp > c.interval * Minute := by
  have hage := ((deletes_iff_aged c w d hitem).mp
    ((deletes_nonempty_iff c w d hitem).mp hdel)).2
  rw [threshold_eq c.interval hlo hhi] at hage
  have hb := Since_bounds w.now d.ObjectMeta.CreationTimestamp
  have h := Round_gt_imp _ c.interval hb.1 hb.2 hage
  rw [Minute_eq]
  revert h hb
  unfold Since Sub
  unfold minDuration at hlo ⊢
  unfold maxDuration at hhi ⊢
  intro hb h
  split_ifs at h hb ⊢ <;> omega

theorem processItem_delete_implies_age_over_threshold_witness :
    minDuration ≤ (10 : Int) * 60000 * 1000000 ∧
    (10 : Int) * 60000 * 1000000 ≤ maxDuration ∧
    deletes (processItem ⟨10, []⟩ (sampleWorld 660000000000 false)).trace ≠ [] ∧
    (sampleWorld 660000000000 false).now -
      (sampleDeployment "true").ObjectMeta.CreationTimestamp > 10 * Minute :=
  ⟨by decide, by decide, by decide,
   (processItem_delete_implies_age_over_threshold ⟨10, []⟩ (sampleWorld 660000000000 false)
     (sampleDeployment "true") rfl (by decide) (by decide) (by decide)).1⟩

/-- Claim C10: for `interval` ≥ 0 whose threshold fits in a 64-bit signed integer
and a dequeued Deployment, shutdown not reported, `processItem` takes the
delete-and-recreate branch exactly when the unrounded age d, the duration that
`Since` returns (negative for an object stamped in the future), is at least
interval·60 s + 30 s; this d is now − creationTimestamp whenever that
difference is at most `maxDuration`; and an object whose age now −
creationTimestamp lies strictly between the threshold and the threshold plus
30 s is deferred, not deleted. -/
theorem processItem_deletes_iff_half_minute_past (c : controller) (w : World) (d : Deployment)
    (hitem : w.item = Obj.deployment d) (hshut : w.shutdown = false)
    (hi : 0 ≤ c.interval) (hfit : c.interval * 60000 * 1000000 ≤ maxDuration) :
    (deletes (processItem c w).trace = [(d.ObjectMeta.Namespace, d.ObjectMeta.Name)] ↔
      Since w.now d.ObjectMeta.CreationTimestamp ≥ c.interval * (60 * Second) + 30 * Second) ∧
    (w.now - d.ObjectMeta.CreationTimestamp ≤ maxDuration →
      (deletes (processItem c w).trace = [(d.ObjectMeta.Namespace, d.ObjectMeta.Name)] ↔
        w.now - d.ObjectMeta.CreationTimestamp ≥ c.interval * (60 * Second) + 30 * Second)) ∧
    (c.interval * (60 * Second) < w.now - d.ObjectMeta.CreationTimestamp ∧
        w.now - d.ObjectMeta.CreationTimestamp < c.interval * (60 * Second) + 30 * Second →
      (processItem c w).trace =
        [Event.queueDone (Obj.deployment d), Event.queueAdd (Obj.deployment d)]) := by
  have hlo : minDuration ≤ c.interval * 60000 * 1000000 := by
    unfold minDuration; omega
  have hb := Since_bounds w.now d.ObjectMeta.CreationTimestamp
  have hiff := Round_gt_iff _ c.interval hb.1 hb.2 hi
  have hsec : (60 * Second : Int) = 60000000000 := by decide
  have hsec30 : (30 * Second : Int) = 30000000000 := by decide
  have key : deletes (processItem c w).trace = [(d.ObjectMeta.Namespace, d.ObjectMeta.Name)] ↔
      Since w.now d.ObjectMeta.CreationTimestamp ≥ 60000000000 * c.interval + 30000000000 := by
    rw [deletes_iff_aged c w d hitem, threshold_eq c.interval hlo hfit]
    constructor
    · exact fun h => hiff.mp h.2
    · exact fun h => ⟨hshut, hiff.mpr h⟩
  rw [hsec, hsec30]
  refine ⟨?_, ?_, ?_⟩
  · rw [key]
    constructor <;> intro h <;> omega
  · intro hrep
    rw [key]
    revert hb
    unfold Since Sub
    unfold minDuration
    unfold maxDuration at hrep hfit ⊢
    intro hb
    split_ifs at hb ⊢ <;> constructor <;> intro h <;> omega
  · intro hbetween
    have hnot : ¬ Round (Since w.now d.ObjectMeta.CreationTimestamp) Minute >
        threshold c.interval := by
      intro hgt
      rw [threshold_eq c.interval hlo hfit] at hgt
      have h := hiff.mp hgt
      revert h hb
      unfold Since Sub
      unfold minDuration
      unfold maxDuration at hfit ⊢
      intro hb h
      split_ifs at h hb <;> omega
    rw [processItem_defer c w d hitem hshut (not_lt.mp hnot)]

theorem processItem_deletes_iff_half_minute_past_witness :
    (0 : Int) ≤ 10 ∧ (10 : Int) * 60000 * 1000000 ≤ maxDuration ∧
    (deletes (processItem ⟨10, []⟩ (sampleWorld 630000000000 false)).trace = [("default", "foo")] ↔
      Since 630000000000 0 ≥ 10 * (60 * Second) + 30 * Second) ∧
    (processItem ⟨10, []⟩ (sampleWorld 629999999999 false)).trace =
      [Event.queueDone (Obj.deployment (sampleDeployment "true")),
       Event.queueAdd (Obj.deployment (sampleDeployment "true"))] :=
  ⟨by decide, by decide,
   (processItem_deletes_iff_half_minute_past ⟨10, []⟩ (sampleWorld 630000000000 false)
     (sampleDeployment "true") rfl rfl (by decide) (by decide)).1,
   (processItem_deletes_iff_half_minute_past ⟨10, []⟩ (sampleWorld 629999999999 false)
     (sampleDeployment "true") rfl rfl (by decide) (by decide)).2.2 (by decide)⟩

/-! ## The design's age and threshold against the code's -/

/-- On every `Duration` the code's rounding is the nearest whole minute. -/
theorem Round_eq_nearestMinute (d : Int) (hlo : minDuration ≤ d) (hhi : d ≤ maxDuration) :
    Round d Minute = nearestMinute d := by
  rw [Round_Minute_eq d hlo hhi]
  unfold nearestMinute
  split_ifs <;> omega

/-- With a threshold that fits and an age not above the largest `Duration`, an
age of the design above the design's threshold is an age of the code above the
code's threshold. -/
theorem code_age_gt_of_spec (interval now created : Int)
    (hlo : minDuration ≤ interval * 60000 * 1000000)
    (hhi : interval * 60000 * 1000000 ≤ maxDuration)
    (hrep : now - created ≤ maxDuration)
    (hage : specAge now created > specThreshold interval) :
    Round (Since now created) Minute > threshold interval := by
  have hb := Since_bounds now created
  rw [threshold_eq interval hlo hhi, Round_eq_nearestMinute _ hb.1 hb.2]
  revert hage
  unfold specAge specThreshold nearestMinute Since Sub
  unfold minDuration at hlo ⊢
  unfold maxDuration at hhi hrep ⊢
  intro hage
  split_ifs at hage ⊢ <;> omega

/-- With a threshold that fits, an age of the design at most the design's
threshold is an age of the code at most the code's threshold, also when the
difference of the instants saturates. -/
theorem code_age_le_of_spec (interval now created : Int)
    (hlo : minDuration ≤ interval * 60000 * 1000000)
    (hhi : interval * 60000 * 1000000 ≤ maxDuration)
    (hage : specAge now created ≤ specThreshold interval) :
    Round (Since now created) Minute ≤ threshold interval := by
  have hb := Since_bounds now created
  rw [threshold_eq interval hlo hhi, Round_eq_nearestMinute _ hb.1 hb.2]
  revert hage
  unfold specAge specThreshold nearestMinute Since Sub
  unfold minDuration at hlo ⊢
  unfold maxDuration at hhi ⊢
  intro hage
  split_ifs at hage ⊢ <;> omega

/-- Claim C3, refuted as stated, at two inputs.  With `interval` −153722869 the
product interval·60000·1000000 wraps to 9223371933709551616 ns, so `default/foo`
aged 5 minutes, whose rounded age exceeds `interval` minutes, is deferred and no
delete is issued.  With `interval` 153722867 and a creation timestamp at the
zero time, the age exceeds `interval` minutes but `Since` saturates at the
largest `Duration`, which rounds to the threshold, and no delete is issued. -/
theorem processItem_aged_not_deleted_on_overflow :
    (specAge (sampleWorld 300000000000 false).now
        (sampleDeployment "true").ObjectMeta.CreationTimestamp >
      specThreshold (-153722869) ∧
     (sampleWorld 300000000000 false).shutdown = false ∧
     deletes (processItem ⟨-153722869, []⟩ (sampleWorld 300000000000 false)).trace = []) ∧
    (specAge 0 zeroTime > specThreshold 153722867 ∧
     deletes (processItem ⟨153722867, []⟩
       ⟨Obj.deployment
          ⟨⟨"foo", "default", zeroTime, [("mesh", "true")]⟩, ⟨some 1, none, ⟨[], []⟩⟩⟩,
        false, 0, fun _ _ => none, fun _ _ => none⟩).trace = []) := by
  decide

/-- Claim C3, amended: when interval·60000·1000000 fits in a 64-bit signed
integer and now − creationTimestamp is not above the largest `Duration`, for a
dequeued Deployment, shutdown not reported, whose age now − creationTimestamp
rounded to the nearest whole minute exceeds `interval` minutes, `processItem`
issues exactly one delete request, for the object's namespace and name; when
the delete succeeds it issues exactly one create request, in that namespace,
and when the delete fails it issues none. -/
theorem processItem_aged_deletes_then_creates (c : controller) (w : World) (d : Deployment)
    (hitem : w.item = Obj.deployment d) (hshut : w.shutdown = false)
    (hlo : minDuration ≤ c.interval * 60000 * 1000000)
    (hhi : c.interval * 60000 * 1000000 ≤ maxDuration)
    (hrep : w.now - d.ObjectMeta.CreationTimestamp ≤ maxDuration)
    (hage : specAge w.now d.ObjectMeta.CreationTimestamp > specThreshold c.interval) :
    deletes (processItem c w).trace = [(d.ObjectMeta.Namespace, d.ObjectMeta.Name)] ∧
    (w.deleteErr d.ObjectMeta.Namespace d.ObjectMeta.Name = none →
      creates (processItem c w).trace = [(d.ObjectMeta.Namespace, replacement)]) ∧
    (w.deleteErr d.ObjectMeta.Namespace d.ObjectMeta.Name ≠ none →
      creates (processItem c w).trace = []) := by
  have hcode := code_age_gt_of_spec c.interval w.now d.ObjectMeta.CreationTimestamp
    hlo hhi hrep hage
  rw [processItem_act c w d hitem hshut hcode]
  cases hdel : w.deleteErr d.ObjectMeta.Namespace d.ObjectMeta.Name with
  | some e => simp [deletes, creates]
  | none =>
    rcases restartDeployment_trace_cases w.createErr d.ObjectMeta.Namespace with h | ⟨err, h⟩ <;>
      simp [h, deletes, creates]

theorem processItem_aged_deletes_then_creates_witness :
    (sampleWorld 660000000000 false).item = Obj.deployment (sampleDeployment "true") ∧
    (sampleWorld 660000000000 false).shutdown = false ∧
    minDuration ≤ (10 : Int) * 60000 * 1000000 ∧
    (10 : Int) * 60000 * 1000000 ≤ maxDuration ∧
    (sampleWorld 660000000000 false).now -
      (sampleDeployment "true").ObjectMeta.CreationTimestamp ≤ maxDuration ∧
    specAge (sampleWorld 660000000000 false).now
      (sampleDeployment "true").ObjectMeta.CreationTimestamp > specThreshold 10 ∧
    deletes (processItem ⟨10, []⟩ (sampleWorld 660000000000 false)).trace = [("default", "foo")] ∧
    creates (processItem ⟨10, []⟩ (sampleWorld 660000000000 false)).trace =
      [("default", replacement)] :=
  have h := processItem_aged_deletes_then_creates ⟨10, []⟩ (sampleWorld 660000000000 false)
    (sampleDeployment "true") rfl rfl (by decide) (by decide) (by decide) (by decide)
  ⟨rfl, rfl, by decide, by decide, by decide, by decide, h.1, h.2.1 rfl⟩

/-- Claim C4, refuted as stated: with `interval` 153722868 the product
interval·60000·1000000 wraps to −9223371993709551616 ns, so `default/foo` aged
5 minutes, whose rounded age is at most `interval` minutes, is deleted and
recreated instead of being added to the queue again. -/
theorem processItem_young_deleted_on_overflow :
    specAge (sampleWorld 300000000000 false).now
        (sampleDeployment "true").ObjectMeta.CreationTimestamp ≤
      specThreshold 153722868 ∧
    (sampleWorld 300000000000 false).shutdown = false ∧
    deletes (processItem ⟨153722868, []⟩ (sampleWorld 300000000000 false)).trace =
      [("default", "foo")] ∧
    creates (processItem ⟨153722868, []⟩ (sampleWorld 300000000000 false)).trace =
      [("default", replacement)] ∧
    queueOps (processItem ⟨153722868, []⟩ (sampleWorld 300000000000 false)).trace =
      [Event.queueForget (Obj.deployment (sampleDeployment "true"))] := by
  decide

/-- Claim C4, amended: when interval·60000·1000000 fits in a 64-bit signed
integer, for a dequeued Deployment, shutdown not reported, whose age now −
creationTimestamp rounded to the nearest whole minute is at most `interval`
minutes, `processItem` issues no delete and no create request; it marks the
item done and then adds the same reference again, so that the item is pending
in the queue when `processItem` returns. -/
theorem processItem_young_requeues (c : controller) (w : World) (d : Deployment)
    (hitem : w.item = Obj.deployment d) (hshut : w.shutdown = false)
    (hlo : minDuration ≤ c.interval * 60000 * 1000000)
    (hhi : c.interval * 60000 * 1000000 ≤ maxDuration)
    (hage : specAge w.now d.ObjectMeta.CreationTimestamp ≤ specThreshold c.interval) :
    deletes (processItem c w).trace = [] ∧
    creates (processItem c w).trace = [] ∧
    (processItem c w).trace =
      [Event.queueDone (Obj.deployment d), Event.queueAdd (Obj.deployment d)] ∧
    ∀ q : WorkQueue, Obj.deployment d ∈ (q.replay (processItem c w).trace).pending := by
  have hcode := code_age_le_of_spec c.interval w.now d.ObjectMeta.CreationTimestamp
    hlo hhi hage
  rw [processItem_defer c w d hitem hshut hcode]
  refine ⟨rfl, rfl, rfl, fun q => ?_⟩
  simp only [WorkQueue.replay, WorkQueue.add, WorkQueue.done]
  by_cases h1 : Obj.deployment d ∈ q.readded
  · simp [h1]
  · by_cases h2 : Obj.deployment d ∈ q.pending
    · simp [h1, h2]
    · simp [h1, h2]

theorem processItem_young_requeues_witness :
    minDuration ≤ (10 : Int) * 60000 * 1000000 ∧
    (10 : Int) * 60000 * 1000000 ≤ maxDuration ∧
    specAge (sampleWorld 300000000000 false).now
      (sampleDeployment "true").ObjectMeta.CreationTimestamp ≤ specThreshold 10 ∧
    deletes (processItem ⟨10, []⟩ (sampleWorld 300000000000 false)).trace = [] ∧
    creates (processItem ⟨10, []⟩ (sampleWorld 300000000000 false)).trace = [] ∧
    Obj.deployment (sampleDeployment "true") ∈
      ((WorkQueue.mk [] [Obj.deployment (sampleDeployment "true")] [] []).replay
        (processItem ⟨10, []⟩ (sampleWorld 300000000000 false)).trace).pending :=
  have h := processItem_young_requeues ⟨10, []⟩ (sampleWorld 300000000000 false)
    (sampleDeployment "true") rfl rfl (by decide) (by decide) (by decide)
  ⟨by decide, by decide, by decide, h.1, h.2.1, h.2.2.2 _⟩

end Controller
